import Mathlib

/-!
# my-openstack-cli: state store, project directory and command dispatch

A shallow embedding of `my-openstack-cli.go`.

* A Go `string` is modelled as its sequence of runes, `List Char` (the model
  covers text that is valid UTF-8; `strings.TrimSpace`, `strings.Fields` and
  `strings.Split` are the rune-level library functions).
* The file system and the external `openstack` tool are an explicit `World`
  that is passed through every operation; what the program does to the outside
  is recorded in the world's `trace`, a list of `Event`s.
-/

set_option autoImplicit false

namespace OpenCli

/-- A Go string, as its sequence of runes. -/
abbrev Str := List Char

/-! ## Library functions used by the program -/

/-- Go `unicode.IsSpace`: the Latin-1 spaces `\t \n \v \f \r`, space, U+0085,
U+00A0, and outside Latin-1 the code points of the Unicode White_Space table. -/
def isSpace (r : Char) : Bool :=
  let n := r.toNat
  if n ≤ 0xFF then
    n == 0x09 || n == 0x0A || n == 0x0B || n == 0x0C || n == 0x0D || n == 0x20
      || n == 0x85 || n == 0xA0
  else
    n == 0x1680 || (0x2000 ≤ n && n ≤ 0x200A) || n == 0x2028 || n == 0x2029
      || n == 0x202F || n == 0x205F || n == 0x3000

/-- Go `strings.TrimSpace`: all leading and trailing white space removed. -/
def TrimSpace (s : Str) : Str :=
  (((s.dropWhile isSpace).reverse).dropWhile isSpace).reverse

/-- First piece and remaining pieces of a string cut at every `sep`. -/
def splitAux (sep : Char) : Str → Str × List Str
  | [] => ([], [])
  | c :: cs =>
    if c = sep then ([], (splitAux sep cs).1 :: (splitAux sep cs).2)
    else (c :: (splitAux sep cs).1, (splitAux sep cs).2)

/-- Go `strings.Split(s, sep)` for a one-rune separator: the pieces of `s`
between the occurrences of `sep`; always at least one piece. -/
def Split (s : Str) (sep : Char) : List Str :=
  (splitAux sep s).1 :: (splitAux sep s).2

/-- The run of non-space runes at the front of a string (empty when the string
is empty or starts with a space) and the fields after that run. -/
def fieldsAux : Str → Str × List Str
  | [] => ([], [])
  | c :: cs =>
    if isSpace c then
      ([], if (fieldsAux cs).1 = [] then (fieldsAux cs).2
           else (fieldsAux cs).1 :: (fieldsAux cs).2)
    else (c :: (fieldsAux cs).1, (fieldsAux cs).2)

/-- Go `strings.Fields`: the maximal runs of non-space runes, in order. -/
def Fields (s : Str) : List Str :=
  if (fieldsAux s).1 = [] then (fieldsAux s).2 else (fieldsAux s).1 :: (fieldsAux s).2

/-- A Go `error` value: its message, and whether `os.IsNotExist` holds of it. -/
structure GoError where
  msg : Str
  notExist : Bool
  deriving DecidableEq, Repr

/-- Go `fmt.Errorf` with an already formatted message. -/
def Errorf (msg : Str) : GoError := ⟨msg, false⟩

/-- A Go `map[string]string`, as the list of its entries (keys are distinct). -/
structure GoMap where
  entries : List (Str × Str)
  deriving DecidableEq, Repr

namespace GoMap

/-- Go `make(map[string]string)`. -/
def make : GoMap := ⟨[]⟩

/-- Go `m[k] = v`: the entry for `k` is replaced or added. -/
def set (m : GoMap) (k v : Str) : GoMap :=
  ⟨(k, v) :: m.entries.filter (fun e => !decide (e.1 = k))⟩

/-- Go `v, found := m[k]`, as an option. -/
def get? (m : GoMap) (k : Str) : Option Str :=
  (m.entries.find? (fun e => decide (e.1 = k))).map Prod.snd

/-- The keys of the map. -/
def keys (m : GoMap) : List Str := m.entries.map Prod.fst

end GoMap

/-! ## The outside world -/

/-- What `ioutil.ReadFile(configFileName)` returns. -/
inductive ReadFileResult where
  | data (d : Str)
  | fail (e : GoError)
  deriving DecidableEq, Repr

/-- What a run does to the outside, in order. -/
inductive Event where
  /-- Text written to standard output by `fmt.Println` / `fmt.Printf`. -/
  | print (text : Str)
  /-- `ioutil.WriteFile(configFileName, data, 0644)` was called. -/
  | write (data : Str)
  /-- `exec.Command(name, args...).Output()` was called (output captured). -/
  | output (name : Str) (args : List Str)
  /-- `exec.Command(name, args...).Run()` was called with the process's own
  standard output and standard error attached. -/
  | run (name : Str) (args : List Str)
  deriving DecidableEq, Repr

/-- The environment of one run: the state file, the external tool, and the
record of what the program has done so far.
* `config`: what reading the state file returns now;
* `writeFails`: `none` when `ioutil.WriteFile` on the state file succeeds,
  `some (e, r)` when it fails with `e` and leaves the file reading as `r`;
* `cmdOutput name args`: the result of `exec.Command(name, args...).Output()`;
* `cmdRun name args`: the result of `exec.Command(name, args...).Run()`;
* `trace`: the events so far, oldest first. -/
structure World where
  config : ReadFileResult
  writeFails : Option (GoError × ReadFileResult)
  cmdOutput : Str → List Str → Except GoError Str
  cmdRun : Str → List Str → Option GoError
  trace : List Event

/-- Records one more event. -/
def World.emit (w : World) (e : Event) : World :=
  { w with trace := w.trace ++ [e] }

/-- The text a run wrote to standard output itself, call by call. -/
def printed : List Event → List Str
  | [] => []
  | Event.print t :: es => t :: printed es
  | Event.write _ :: es => printed es
  | Event.output _ _ :: es => printed es
  | Event.run _ _ :: es => printed es

/-- The data of the `ioutil.WriteFile` calls of a run. -/
def written : List Event → List Str
  | [] => []
  | Event.write d :: es => d :: written es
  | Event.print _ :: es => written es
  | Event.output _ _ :: es => written es
  | Event.run _ _ :: es => written es

/-- The external commands a run started with `Run()`: name and arguments. -/
def invoked : List Event → List (Str × List Str)
  | [] => []
  | Event.run n a :: es => (n, a) :: invoked es
  | Event.print _ :: es => invoked es
  | Event.write _ :: es => invoked es
  | Event.output _ _ :: es => invoked es

/-- Go `fmt.Println` / `fmt.Printf` of an already formatted text. -/
def Print (w : World) (text : Str) : World := w.emit (Event.print text)

/-- Go `ioutil.ReadFile` on the state file. -/
def ReadFile (w : World) : ReadFileResult := w.config

/-- Go `ioutil.WriteFile` on the state file. -/
def WriteFile (w : World) (data : Str) : Option GoError × World :=
  match w.writeFails with
  | none => (none, { w.emit (Event.write data) with config := ReadFileResult.data data })
  | some (e, r) => (some e, { w.emit (Event.write data) with config := r })

/-- Go `exec.Command(name, args...).Output()`. -/
def Output (w : World) (name : Str) (args : List Str) : Except GoError Str × World :=
  (w.cmdOutput name args, w.emit (Event.output name args))

/-- Go `exec.Command(name, args...).Run()` with the standard streams attached. -/
def Run (w : World) (name : Str) (args : List Str) : Option GoError × World :=
  (w.cmdRun name args, w.emit (Event.run name args))

/-! ## The program -/

/-- Source `setActiveProject`: writes `projectID\nprojectName` to the state file. -/
def setActiveProject (w : World) (projectID projectName : Str) : Option GoError × World :=
  let data := projectID ++ "\n".toList ++ projectName
  WriteFile w data

/-- Source `getActiveProject`: the stored project ID and name, `("", "")` when
the state file does not exist, an error otherwise. -/
def getActiveProject (w : World) : Except GoError (Str × Str) :=
  match ReadFile w with
  | ReadFileResult.fail err =>
    if err.notExist then Except.ok ([], [])
    else Except.error err
  | ReadFileResult.data data =>
    let lines := Split (TrimSpace data) '\n'
    if 2 ≤ lines.length then
      let projectID := TrimSpace (lines.getD 0 [])
      let projectName := TrimSpace (lines.getD 1 [])
      Except.ok (projectID, projectName)
    else Except.error (Errorf "Invalid format in config file".toList)

/-- Source `getProjectName`: the name the directory gives to a project ID. -/
def getProjectName (projectID : Str) (projects : GoMap) : Except GoError Str :=
  match projects.get? projectID with
  | none => Except.error (Errorf ("Project ID not found: ".toList ++ projectID))
  | some projectName => Except.ok projectName

/-- The arguments of the listing command of `getAvailableProjects`. -/
def listArgs : List Str :=
  ["project".toList, "list".toList, "-f".toList, "value".toList, "-c".toList, "ID".toList,
   "-c".toList, "Name".toList]

/-- The loop of `getAvailableProjects` over the lines of the captured output. -/
def parseLines (projects : GoMap) : List Str → GoMap
  | [] => projects
  | line :: rest =>
    let fields := Fields line
    if 2 ≤ fields.length then
      parseLines (projects.set (fields.getD 0 []) (fields.getD 1 [])) rest
    else parseLines projects rest

/-- The parsing part of `getAvailableProjects`, from the captured output on. -/
def parseProjects (output : Str) : GoMap :=
  let projects := GoMap.make
  let lines := Split (TrimSpace output) '\n'
  parseLines projects lines

/-- Source `getAvailableProjects`: runs the listing and parses its output into
the ID to name mapping. -/
def getAvailableProjects (w : World) : Except GoError GoMap × World :=
  match Output w "openstack".toList listArgs with
  | (Except.error err, w1) => (Except.error err, w1)
  | (Except.ok output, w1) => (Except.ok (parseProjects output), w1)

/-- Source `runOpenStackCommand`: the pass-through to the external tool. -/
def runOpenStackCommand (w : World) (args : List Str) : Option GoError × World :=
  match getActiveProject w with
  | Except.error err => (some err, w)
  | Except.ok (projectID, _) =>
    if projectID = [] then (none, Print w "No active project set.\n".toList)
    else
      let openstackArgs := ["openstack".toList] ++ args
      let openstackArgs := openstackArgs ++ ["--os-project-id=".toList ++ projectID]
      Run w (openstackArgs.headD []) (openstackArgs.drop 1)

/-- Go `fmt.Println("Error:", err)`. -/
def printError (w : World) (err : GoError) : World :=
  Print w ("Error: ".toList ++ err.msg ++ "\n".toList)

/-- The usage text of `printHelp`. -/
def helpText : Str :=
  "\nUsage: my-openstack-cli <command> [<args>]\n\nCommands:\n  set-project <project-id>   Set the active project\n  show-current                Display the active project\n  show-projects              Display all available projects\n  --help                     Show this help message\n  <openstack-command>        Run an OpenStack CLI command with the active project\n\nExample:\n  my-openstack-cli set-project my-project-id\n  my-openstack-cli show-current\n  my-openstack-cli show-projects\n  my-openstack-cli server list\n".toList

/-- Source `printHelp`. -/
def printHelp (w : World) : World := Print w (helpText ++ "\n".toList)

/-- The usage hint of `set-project`, as `fmt.Println` writes it. -/
def setProjectUsage : Str :=
  "Usage: my-openstack-cli set-project <project-id> <project-name>\n".toList

/-- The loop of `show-projects` over the directory (in entry order; Go leaves
the order of a map iteration unspecified). -/
def printProjects (w : World) : List (Str × Str) → World
  | [] => w
  | (projectID, projectName) :: rest =>
    printProjects (Print w (projectID ++ " - ".toList ++ projectName ++ "\n".toList)) rest

/-- Source `main`, on the command line `osArgs` (program name first): the world
after the run, its trace extended by what the run did. -/
def main (osArgs : List Str) (w : World) : World :=
  if osArgs.length < 2 ∨ osArgs.getD 1 [] = "--help".toList then printHelp w
  else
    let command := osArgs.getD 1 []
    if command = "set-project".toList then
      if osArgs.length < 4 then Print w setProjectUsage
      else
        let projectID := osArgs.getD 2 []
        let projectName := osArgs.getD 3 []
        match setActiveProject w projectID projectName with
        | (some err, w1) => printError w1 err
        | (none, w1) => Print w1 ("Project set to: ".toList ++ projectID ++ "\n".toList)
    else if command = "show-current".toList then
      match getAvailableProjects w with
      | (Except.error err, w1) => printError w1 err
      | (Except.ok projects, w1) =>
        match getActiveProject w1 with
        | Except.error err => printError w1 err
        | Except.ok (projectID, _) =>
          if projectID = [] then Print w1 "No active project set.\n".toList
          else
            match getProjectName projectID projects with
            | Except.error err => printError w1 err
            | Except.ok projectName =>
              Print (Print w1 ("Active project ID: ".toList ++ projectID ++ "\n".toList))
                ("Active project Name: ".toList ++ projectName ++ "\n".toList)
    else if command = "show-projects".toList then
      match getAvailableProjects w with
      | (Except.error err, w1) => printError w1 err
      | (Except.ok projects, w1) =>
        printProjects (Print w1 "Available projects:\n".toList) projects.entries
    else
      let args := osArgs.drop 1
      match runOpenStackCommand w args with
      | (some err, w1) => printError w1 err
      | (none, w1) => w1

/-! ## Auxiliary notions for the statements -/

/-- The directory entry a line of the listing contributes: its first two
fields, when it has at least two (the body of the loop of
`getAvailableProjects`). -/
def lineEntry (line : Str) : Option (Str × Str) :=
  if 2 ≤ (Fields line).length then some ((Fields line).getD 0 [], (Fields line).getD 1 [])
  else none

/-- Every rune of the string is white space. -/
def allSpace (t : Str) : Prop := ∀ c ∈ t, isSpace c = true

instance allSpace.decidable (t : Str) : Decidable (allSpace t) :=
  inferInstanceAs (Decidable (∀ c ∈ t, isSpace c = true))

/-! ## Concrete worlds used in examples -/

/-- A world with the given state file and listing output, where writes succeed
and the pass-through run succeeds, before anything has happened. -/
def mkWorld (config : ReadFileResult) (listing : Except GoError Str) : World :=
  { config := config, writeFails := none,
    cmdOutput := fun _ _ => listing, cmdRun := fun _ _ => none, trace := [] }

/-- The read error of a state file that does not exist. -/
def errNotExist : GoError := ⟨"open config: no such file or directory".toList, true⟩

/-! ## Facts about the library functions -/

theorem isSpace_newline : isSpace '\n' = true := by decide

theorem dropWhile_head_false (p : Char → Bool) (l : Str) (c : Char) (t : Str)
    (h : l.dropWhile p = c :: t) : p c = false := by
  induction l with
  | nil => simp at h
  | cons x xs ih =>
    by_cases hx : p x = true
    · rw [List.dropWhile_cons_of_pos hx] at h
      exact ih h
    · rw [List.dropWhile_cons_of_neg hx] at h
      injection h with h1 _
      subst h1
      simpa using hx

/-- A trimmed string is empty or starts with a rune that is not a space. -/
theorem TrimSpace_head (s : Str) (c : Char) (t : Str) (h : TrimSpace s = c :: t) :
    isSpace c = false := by
  unfold TrimSpace at h
  have hsuf : ((s.dropWhile isSpace).reverse).dropWhile isSpace <:+ (s.dropWhile isSpace).reverse :=
    List.dropWhile_suffix _
  have hpre := List.reverse_prefix.mpr hsuf
  rw [List.reverse_reverse, h] at hpre
  obtain ⟨r, hr⟩ := hpre
  exact dropWhile_head_false isSpace s c (t ++ r) (by rw [← hr]; rfl)

/-- Trimming keeps a first rune that is not a space. -/
theorem TrimSpace_cons_ne_nil (c : Char) (l : Str) (hc : isSpace c = false) :
    TrimSpace (c :: l) ≠ [] := by
  unfold TrimSpace
  have h1 : (c :: l).dropWhile isSpace = c :: l := by
    rw [List.dropWhile_cons_of_neg (by simp [hc])]
  rw [h1]
  intro h
  have h2 : ((c :: l).reverse).dropWhile isSpace = [] := by
    simpa using h
  rw [List.dropWhile_eq_nil_iff] at h2
  have := h2 c (by simp)
  simp [hc] at this

/-- A string whose first and last runes are not spaces is its own trimming. -/
theorem TrimSpace_eq_self (s : Str)
    (hh : ∀ c, s.head? = some c → isSpace c = false)
    (hl : ∀ c, s.getLast? = some c → isSpace c = false) : TrimSpace s = s := by
  unfold TrimSpace
  have h1 : s.dropWhile isSpace = s := by
    cases s with
    | nil => rfl
    | cons c l => rw [List.dropWhile_cons_of_neg (by simp [hh c rfl])]
  rw [h1]
  have h2 : (s.reverse).dropWhile isSpace = s.reverse := by
    cases hr : s.reverse with
    | nil => rfl
    | cons c l =>
      have : s.getLast? = some c := by
        rw [List.getLast?_eq_head?_reverse, hr]; rfl
      rw [List.dropWhile_cons_of_neg (by simp [hl c this])]
  rw [h2, List.reverse_reverse]

/-- The converse: the first and last runes of a trimmed string are not spaces. -/
theorem TrimSpace_fixed (s : Str) (h : TrimSpace s = s) :
    (∀ c, s.head? = some c → isSpace c = false) ∧
    (∀ c, s.getLast? = some c → isSpace c = false) := by
  constructor
  · intro c hc
    cases s with
    | nil => simp at hc
    | cons x xs =>
      simp at hc
      subst hc
      exact TrimSpace_head _ _ _ h
  · intro c hc
    unfold TrimSpace at h
    have h3 : (((s.dropWhile isSpace).reverse).dropWhile isSpace) = s.reverse := by
      rw [← List.reverse_inj, List.reverse_reverse]; exact h
    rw [List.getLast?_eq_head?_reverse] at hc
    cases hr : s.reverse with
    | nil => rw [hr] at hc; simp at hc
    | cons x xs =>
      rw [hr] at hc h3
      simp at hc
      subst hc
      exact dropWhile_head_false isSpace _ _ _ h3

theorem splitAux_cons_sep (sep : Char) (cs : Str) :
    splitAux sep (sep :: cs) = ([], (splitAux sep cs).1 :: (splitAux sep cs).2) := by
  simp [splitAux]

theorem splitAux_cons_ne (sep c : Char) (cs : Str) (h : c ≠ sep) :
    splitAux sep (c :: cs) = (c :: (splitAux sep cs).1, (splitAux sep cs).2) := by
  simp [splitAux, h]

theorem fieldsAux_cons (c : Char) (cs : Str) :
    fieldsAux (c :: cs) =
      if isSpace c then
        ([], if (fieldsAux cs).1 = [] then (fieldsAux cs).2
             else (fieldsAux cs).1 :: (fieldsAux cs).2)
      else (c :: (fieldsAux cs).1, (fieldsAux cs).2) := by
  simp [fieldsAux]

theorem splitAux_no_sep (sep : Char) (s : Str) (h : sep ∉ s) : splitAux sep s = (s, []) := by
  induction s with
  | nil => rfl
  | cons c cs ih =>
    have hc : c ≠ sep := fun e => h (by simp [e])
    have hcs : sep ∉ cs := fun e => h (by simp [e])
    simp [splitAux, hc, ih hcs]

theorem splitAux_append_sep (sep : Char) (a b : Str) (h : sep ∉ a) :
    splitAux sep (a ++ sep :: b) = (a, (splitAux sep b).1 :: (splitAux sep b).2) := by
  induction a with
  | nil => simp [splitAux]
  | cons c cs ih =>
    have hc : c ≠ sep := fun e => h (by simp [e])
    have hcs : sep ∉ cs := fun e => h (by simp [e])
    simp [splitAux, hc, ih hcs]

theorem splitAux_snd_eq_nil (sep : Char) (s : Str) : (splitAux sep s).2 = [] ↔ sep ∉ s := by
  induction s with
  | nil => simp [splitAux]
  | cons c cs ih =>
    by_cases hc : c = sep
    · simp [splitAux, hc]
    · have : ¬ sep = c := fun e => hc e.symm
      simp [splitAux, hc, ih, this]

/-- Splitting gives fewer than two pieces exactly when the separator is absent. -/
theorem Split_length_lt_two (sep : Char) (s : Str) : (Split s sep).length < 2 ↔ sep ∉ s := by
  rw [← splitAux_snd_eq_nil]
  unfold Split
  cases (splitAux sep s).2 <;> simp

/-- The first line of a trimmed text with at least one rune starts with a rune
that is not a space. -/
theorem first_line_trimmed (data : Str) :
    TrimSpace data = [] ∨
    ∃ c l, (splitAux '\n' (TrimSpace data)).1 = c :: l ∧ isSpace c = false := by
  cases h : TrimSpace data with
  | nil => exact Or.inl rfl
  | cons c t =>
    right
    have hc := TrimSpace_head data c t h
    have hne : c ≠ '\n' := by
      intro e
      rw [e, isSpace_newline] at hc
      exact Bool.noConfusion hc
    exact ⟨c, (splitAux '\n' t).1, by simp [splitAux, hne], hc⟩

/-- A state file that parses gives a project ID that is not empty. -/
theorem getActiveProject_data_id_ne_nil (w : World) (data projectID projectName : Str)
    (hd : ReadFile w = ReadFileResult.data data)
    (h : getActiveProject w = Except.ok (projectID, projectName)) : projectID ≠ [] := by
  unfold getActiveProject at h
  rw [hd] at h
  simp only at h
  by_cases hlen : 2 ≤ (Split (TrimSpace data) '\n').length
  · rw [if_pos hlen] at h
    injection h with h
    injection h with h1 _
    rcases first_line_trimmed data with h0 | ⟨c, l, hcl, hc⟩
    · rw [h0] at hlen
      simp [Split, splitAux] at hlen
    · subst h1
      have : (Split (TrimSpace data) '\n').getD 0 [] = c :: l := by
        simp [Split, hcl]
      rw [this]
      exact TrimSpace_cons_ne_nil c l hc
  · rw [if_neg hlen] at h
    exact Except.noConfusion h

/-! ## Trimming the listing does not change the entries of its lines -/

theorem fieldsAux_allSpace (t : Str) (h : allSpace t) : fieldsAux t = ([], []) := by
  induction t with
  | nil => rfl
  | cons c cs ih =>
    have hc : isSpace c = true := h c (by simp)
    have hcs : allSpace cs := fun x hx => h x (by simp [hx])
    simp [fieldsAux, hc, ih hcs]

theorem fieldsAux_append_allSpace (s t : Str) (h : allSpace t) :
    fieldsAux (s ++ t) = fieldsAux s := by
  induction s with
  | nil => simpa [fieldsAux] using fieldsAux_allSpace t h
  | cons c cs ih => simp [fieldsAux, ih]

theorem Fields_cons_space (c : Char) (s : Str) (hc : isSpace c = true) :
    Fields (c :: s) = Fields s := by
  simp [Fields, fieldsAux, hc]

theorem lineEntry_congr (a b : Str) (h : fieldsAux a = fieldsAux b) :
    lineEntry a = lineEntry b := by
  simp [lineEntry, Fields, h]

theorem lineEntry_cons_space (c : Char) (s : Str) (hc : isSpace c = true) :
    lineEntry (c :: s) = lineEntry s := by
  simp [lineEntry, Fields_cons_space c s hc]

theorem lineEntry_allSpace (t : Str) (h : allSpace t) : lineEntry t = none := by
  simp [lineEntry, Fields, fieldsAux_allSpace t h]

theorem splitAux_allSpace (sep : Char) (t : Str) (h : allSpace t) :
    allSpace (splitAux sep t).1 ∧ ∀ l ∈ (splitAux sep t).2, allSpace l := by
  induction t with
  | nil => simp [splitAux, allSpace]
  | cons c cs ih =>
    have hc : isSpace c = true := h c (by simp)
    have hcs : allSpace cs := fun x hx => h x (by simp [hx])
    obtain ⟨ih1, ih2⟩ := ih hcs
    by_cases e : c = sep
    · simp only [splitAux, e, if_true]
      refine ⟨by simp [allSpace], ?_⟩
      intro l hl
      rcases List.mem_cons.mp hl with hl | hl
      · rw [hl]; exact ih1
      · exact ih2 l hl
    · simp only [splitAux, e, if_false]
      refine ⟨?_, ih2⟩
      intro x hx
      rcases List.mem_cons.mp hx with hx | hx
      · rw [hx]; exact hc
      · exact ih1 x hx

/-- White space in front of a text adds no entry. -/
theorem entries_leading (t s : Str) (h : allSpace t) :
    (Split (t ++ s) '\n').filterMap lineEntry = (Split s '\n').filterMap lineEntry := by
  induction t with
  | nil => rfl
  | cons c cs ih =>
    have hc : isSpace c = true := h c (by simp)
    have hcs : allSpace cs := fun x hx => h x (by simp [hx])
    have ih := ih hcs
    unfold Split at ih ⊢
    by_cases e : c = '\n'
    · have h0 : lineEntry [] = none := by decide
      simp only [List.cons_append, splitAux, e, if_true, List.filterMap_cons, h0]
      exact ih
    · simp only [List.cons_append, splitAux, e, if_false, List.filterMap_cons,
        lineEntry_cons_space c _ hc]
      simpa only [List.filterMap_cons] using ih

/-- White space behind a text adds no entry. -/
theorem entries_trailing_aux (s t : Str) (h : allSpace t) :
    fieldsAux (splitAux '\n' (s ++ t)).1 = fieldsAux (splitAux '\n' s).1 ∧
    (splitAux '\n' (s ++ t)).2.filterMap lineEntry
      = (splitAux '\n' s).2.filterMap lineEntry := by
  induction s with
  | nil =>
    obtain ⟨h1, h2⟩ := splitAux_allSpace '\n' t h
    refine ⟨by simpa [splitAux, fieldsAux] using fieldsAux_allSpace _ h1, ?_⟩
    simp only [List.nil_append, splitAux, List.filterMap_nil, List.filterMap_eq_nil_iff]
    intro l hl
    exact lineEntry_allSpace l (h2 l hl)
  | cons c cs ih =>
    obtain ⟨ih1, ih2⟩ := ih
    by_cases e : c = '\n'
    · subst e
      rw [List.cons_append, splitAux_cons_sep, splitAux_cons_sep]
      refine ⟨rfl, ?_⟩
      simp only [List.filterMap_cons, lineEntry_congr _ _ ih1, ih2]
    · rw [List.cons_append, splitAux_cons_ne _ _ _ e, splitAux_cons_ne _ _ _ e]
      refine ⟨?_, ih2⟩
      simp only [fieldsAux_cons, ih1]

theorem entries_trailing (s t : Str) (h : allSpace t) :
    (Split (s ++ t) '\n').filterMap lineEntry = (Split s '\n').filterMap lineEntry := by
  obtain ⟨h1, h2⟩ := entries_trailing_aux s t h
  simp only [Split, List.filterMap_cons, lineEntry_congr _ _ h1, h2]

/-- A text is its trimming between two runs of white space. -/
theorem TrimSpace_decomp (s : Str) :
    ∃ pre post, allSpace pre ∧ allSpace post ∧ s = pre ++ (TrimSpace s ++ post) := by
  refine ⟨s.takeWhile isSpace, (((s.dropWhile isSpace).reverse).takeWhile isSpace).reverse,
    ?_, ?_, ?_⟩
  · intro c hc
    exact List.mem_takeWhile_imp hc
  · intro c hc
    exact List.mem_takeWhile_imp (List.mem_reverse.mp hc)
  · unfold TrimSpace
    rw [← List.reverse_append, List.takeWhile_append_dropWhile, List.reverse_reverse,
      List.takeWhile_append_dropWhile]

/-- The lines of the trimmed listing contribute the entries of the lines of the
listing itself. -/
theorem entries_TrimSpace (s : Str) :
    (Split (TrimSpace s) '\n').filterMap lineEntry = (Split s '\n').filterMap lineEntry := by
  obtain ⟨pre, post, h1, h2, h3⟩ := TrimSpace_decomp s
  conv_rhs => rw [h3]
  rw [entries_leading pre _ h1, entries_trailing _ post h2]

/-! ## The directory built from the lines -/

theorem find?_filter_ne (es : List (Str × Str)) (a k : Str) (h : ¬ a = k) :
    (es.filter (fun e => !decide (e.1 = a))).find? (fun e => decide (e.1 = k))
      = es.find? (fun e => decide (e.1 = k)) := by
  rw [List.find?_filter]
  congr 1
  funext e
  by_cases h2 : e.1 = k
  · have h1 : ¬ e.1 = a := fun e1 => h (e1.symm.trans h2)
    have h3 : ¬ k = a := fun e1 => h e1.symm
    simp [h1, h2, h3]
  · simp [h2]

theorem GoMap.get?_set (m : GoMap) (a b k : Str) :
    (m.set a b).get? k = if a = k then some b else m.get? k := by
  unfold GoMap.get? GoMap.set
  by_cases h : a = k
  · simp [h]
  · simp only [h, if_false]
    rw [List.find?_cons_of_neg _ (by simpa using h), find?_filter_ne _ _ _ h]

theorem GoMap.mem_keys_set (m : GoMap) (a b k : Str) :
    k ∈ (m.set a b).keys ↔ a = k ∨ k ∈ m.keys := by
  unfold GoMap.keys GoMap.set
  simp only [List.map_cons, List.mem_cons, List.mem_map, List.mem_filter]
  constructor
  · rintro (h | ⟨e, ⟨he, _⟩, hk⟩)
    · exact Or.inl h.symm
    · exact Or.inr ⟨e, he, hk⟩
  · rintro (h | ⟨e, he, hk⟩)
    · exact Or.inl h.symm
    · by_cases h1 : a = k
      · exact Or.inl h1.symm
      · right
        refine ⟨e, ⟨he, ?_⟩, hk⟩
        have : ¬ e.1 = a := fun e1 => h1 (e1.symm.trans hk)
        simp [this]

theorem GoMap.get?_eq_none (m : GoMap) (k : Str) : m.get? k = none ↔ k ∉ m.keys := by
  unfold GoMap.get? GoMap.keys
  simp only [Option.map_eq_none', List.find?_eq_none, decide_eq_true_eq, List.mem_map,
    not_exists, not_and]

theorem lineEntry_eq_some (line k v : Str) :
    lineEntry line = some (k, v) ↔ ∃ rest, Fields line = k :: v :: rest := by
  unfold lineEntry
  cases Fields line with
  | nil => simp
  | cons a t =>
    cases t with
    | nil => simp
    | cons b r =>
      simp only [List.length_cons, Nat.le_add_left, if_true, List.getD_cons_zero,
        List.getD_cons_succ, Option.some.injEq, Prod.mk.injEq, List.cons.injEq]
      constructor
      · rintro ⟨h1, h2⟩
        exact ⟨r, h1, h2, rfl⟩
      · rintro ⟨_, h1, h2, _⟩
        exact ⟨h1, h2⟩

theorem parseLines_eq_foldl (m : GoMap) (ls : List Str) :
    parseLines m ls = (ls.filterMap lineEntry).foldl (fun m e => m.set e.1 e.2) m := by
  induction ls generalizing m with
  | nil => rfl
  | cons l ls ih =>
    unfold parseLines
    by_cases h : 2 ≤ (Fields l).length
    · simp only [h, if_true, List.filterMap_cons, lineEntry, List.foldl_cons]
      exact ih _
    · simp only [h, if_false, List.filterMap_cons, lineEntry]
      exact ih _

theorem foldl_set_get? (es : List (Str × Str)) (m : GoMap) (k v : Str) :
    (es.foldl (fun m e => m.set e.1 e.2) m).get? k = some v ↔
      (∃ pre post, es = pre ++ (k, v) :: post ∧ ∀ e ∈ post, e.1 ≠ k) ∨
      ((∀ e ∈ es, e.1 ≠ k) ∧ m.get? k = some v) := by
  induction es generalizing m with
  | nil => simp
  | cons e es ih =>
    rw [List.foldl_cons, ih, GoMap.get?_set]
    constructor
    · rintro (⟨pre, post, h1, h2⟩ | ⟨h1, h2⟩)
      · exact Or.inl ⟨e :: pre, post, by rw [h1]; rfl, h2⟩
      · by_cases hk : e.1 = k
        · rw [if_pos hk] at h2
          injection h2 with h2
          left
          refine ⟨[], es, ?_, h1⟩
          rw [List.nil_append, ← hk, ← h2]
        · rw [if_neg hk] at h2
          right
          refine ⟨?_, h2⟩
          intro x hx
          rcases List.mem_cons.mp hx with hx | hx
          · rw [hx]; exact hk
          · exact h1 x hx
    · rintro (⟨pre, post, h1, h2⟩ | ⟨h1, h2⟩)
      · cases pre with
        | nil =>
          rw [List.nil_append] at h1
          injection h1 with h1 h3
          right
          subst h3
          refine ⟨h2, ?_⟩
          rw [h1]
          simp
        | cons x pre =>
          rw [List.cons_append] at h1
          injection h1 with _ h3
          exact Or.inl ⟨pre, post, h3, h2⟩
      · right
        have hk : ¬ e.1 = k := h1 e (by simp)
        refine ⟨fun x hx => h1 x (by simp [hx]), ?_⟩
        rw [if_neg hk]
        exact h2

theorem foldl_set_keys (es : List (Str × Str)) (m : GoMap) (k : Str) :
    k ∈ (es.foldl (fun m e => m.set e.1 e.2) m).keys ↔ (∃ e ∈ es, e.1 = k) ∨ k ∈ m.keys := by
  induction es generalizing m with
  | nil => simp
  | cons e es ih =>
    rw [List.foldl_cons, ih]
    rw [GoMap.mem_keys_set]
    constructor
    · rintro (⟨x, hx, hk⟩ | h | h)
      · exact Or.inl ⟨x, by simp [hx], hk⟩
      · exact Or.inl ⟨e, by simp, h⟩
      · exact Or.inr h
    · rintro (⟨x, hx, hk⟩ | h)
      · rcases List.mem_cons.mp hx with hx | hx
        · exact Or.inr (Or.inl (by rw [← hx]; exact hk))
        · exact Or.inl ⟨x, hx, hk⟩
      · exact Or.inr (Or.inr h)

/-- The directory of a list of lines, read off any list of lines with the same
entries: `k` is sent to `v` exactly when the last line with at least two fields
and first field `k` has second field `v`. -/
theorem parseLines_get? (ls ls' : List Str)
    (hl : ls.filterMap lineEntry = ls'.filterMap lineEntry) (k v : Str) :
    (parseLines GoMap.make ls).get? k = some v ↔
      ∃ pre line post, ls' = pre ++ line :: post ∧ (∃ rest, Fields line = k :: v :: rest) ∧
        ∀ l ∈ post, ∀ v' rest, Fields l ≠ k :: v' :: rest := by
  rw [parseLines_eq_foldl, foldl_set_get?, hl]
  have hmake : GoMap.make.get? k = none := rfl
  constructor
  · rintro (⟨pre, post, h1, h2⟩ | ⟨_, h2⟩)
    · obtain ⟨l1, l2, h3, _, h5⟩ := List.filterMap_eq_append_iff.mp h1
      obtain ⟨a1, line, a2, h6, _, h8, h9⟩ := List.filterMap_eq_cons_iff.mp h5
      refine ⟨l1 ++ a1, line, a2, by rw [h3, h6, List.append_assoc],
        (lineEntry_eq_some line k v).mp h8, ?_⟩
      intro l hl v' rest hf
      have hmem : (k, v') ∈ a2.filterMap lineEntry :=
        List.mem_filterMap.mpr ⟨l, hl, (lineEntry_eq_some l k v').mpr ⟨rest, hf⟩⟩
      rw [h9] at hmem
      exact h2 _ hmem rfl
    · rw [hmake] at h2
      exact Option.noConfusion h2
  · rintro ⟨pre, line, post, h1, h2, h3⟩
    left
    refine ⟨pre.filterMap lineEntry, post.filterMap lineEntry, ?_, ?_⟩
    · rw [h1, List.filterMap_append, List.filterMap_cons, (lineEntry_eq_some line k v).mpr h2]
    · intro e he hk
      obtain ⟨l, hl, hle⟩ := List.mem_filterMap.mp he
      have : lineEntry l = some (k, e.2) := by rw [hle, ← hk]
      obtain ⟨rest, hr⟩ := (lineEntry_eq_some l k e.2).mp this
      exact h3 l hl e.2 rest hr

/-- The keys of the directory are the first fields of the lines with at least
two fields. -/
theorem parseLines_keys (ls ls' : List Str)
    (hl : ls.filterMap lineEntry = ls'.filterMap lineEntry) (k : Str) :
    k ∈ (parseLines GoMap.make ls).keys ↔
      ∃ line ∈ ls', ∃ v rest, Fields line = k :: v :: rest := by
  rw [parseLines_eq_foldl, foldl_set_keys, hl]
  have hmake : k ∉ GoMap.make.keys := by simp [GoMap.make, GoMap.keys]
  constructor
  · rintro (⟨e, he, hk⟩ | h)
    · obtain ⟨l, hl, hle⟩ := List.mem_filterMap.mp he
      have : lineEntry l = some (k, e.2) := by rw [hle, ← hk]
      obtain ⟨rest, hr⟩ := (lineEntry_eq_some l k e.2).mp this
      exact ⟨l, hl, e.2, rest, hr⟩
    · exact absurd h hmake
  · rintro ⟨l, hl, v, rest, hr⟩
    left
    exact ⟨(k, v), List.mem_filterMap.mpr ⟨l, hl, (lineEntry_eq_some l k v).mpr ⟨rest, hr⟩⟩, rfl⟩

/-! ## Traces -/

theorem printed_append (a b : List Event) : printed (a ++ b) = printed a ++ printed b := by
  induction a with
  | nil => rfl
  | cons e es ih => cases e <;> simp [printed, ih]

theorem written_append (a b : List Event) : written (a ++ b) = written a ++ written b := by
  induction a with
  | nil => rfl
  | cons e es ih => cases e <;> simp [written, ih]

theorem invoked_append (a b : List Event) : invoked (a ++ b) = invoked a ++ invoked b := by
  induction a with
  | nil => rfl
  | cons e es ih => cases e <;> simp [invoked, ih]

/-! ## The dispatcher, command by command -/

theorem main_set_project (prog : Str) (rest : List Str) (w : World) :
    main (prog :: "set-project".toList :: rest) w =
      if rest.length < 2 then Print w setProjectUsage
      else
        match setActiveProject w (rest.getD 0 []) (rest.getD 1 []) with
        | (some err, w1) => printError w1 err
        | (none, w1) =>
          Print w1 ("Project set to: ".toList ++ rest.getD 0 [] ++ "\n".toList) := by
  have h0 : ¬ ((prog :: "set-project".toList :: rest).length < 2 ∨
      (prog :: "set-project".toList :: rest).getD 1 [] = "--help".toList) := by
    intro h
    rcases h with h | h
    · simp only [List.length_cons] at h; omega
    · have h9 : "set-project".toList = "--help".toList := h
      exact absurd h9 (by decide)
  have h1 : (prog :: "set-project".toList :: rest).getD 1 [] = "set-project".toList := rfl
  have h2 : (prog :: "set-project".toList :: rest).length < 4 ↔ rest.length < 2 := by
    simp only [List.length_cons]; omega
  unfold main
  rw [if_neg h0]
  simp only [h1, if_true]
  by_cases h3 : rest.length < 2
  · rw [if_pos (h2.mpr h3), if_pos h3]
  · rw [if_neg (fun h => h3 (h2.mp h)), if_neg h3]
    rfl

theorem main_show_current (prog : Str) (rest : List Str) (w : World) :
    main (prog :: "show-current".toList :: rest) w =
      match getAvailableProjects w with
      | (Except.error err, w1) => printError w1 err
      | (Except.ok projects, w1) =>
        match getActiveProject w1 with
        | Except.error err => printError w1 err
        | Except.ok (projectID, _) =>
          if projectID = [] then Print w1 "No active project set.\n".toList
          else
            match getProjectName projectID projects with
            | Except.error err => printError w1 err
            | Except.ok projectName =>
              Print (Print w1 ("Active project ID: ".toList ++ projectID ++ "\n".toList))
                ("Active project Name: ".toList ++ projectName ++ "\n".toList) := by
  have h0 : ¬ ((prog :: "show-current".toList :: rest).length < 2 ∨
      (prog :: "show-current".toList :: rest).getD 1 [] = "--help".toList) := by
    intro h
    rcases h with h | h
    · simp only [List.length_cons] at h; omega
    · have h9 : "show-current".toList = "--help".toList := h
      exact absurd h9 (by decide)
  have h1 : (prog :: "show-current".toList :: rest).getD 1 [] = "show-current".toList := rfl
  have h2 : ¬ "show-current".toList = "set-project".toList := by decide
  unfold main
  rw [if_neg h0]
  simp only [h1, if_neg h2, if_true]

theorem main_passthrough (prog first : Str) (rest : List Str) (w : World)
    (h1 : first ≠ "--help".toList) (h2 : first ≠ "set-project".toList)
    (h3 : first ≠ "show-current".toList) (h4 : first ≠ "show-projects".toList) :
    main (prog :: first :: rest) w =
      match runOpenStackCommand w (first :: rest) with
      | (some err, w1) => printError w1 err
      | (none, w1) => w1 := by
  have h0 : ¬ ((prog :: first :: rest).length < 2 ∨
      (prog :: first :: rest).getD 1 [] = "--help".toList) := by
    intro h
    rcases h with h | h
    · simp only [List.length_cons] at h; omega
    · exact h1 h
  have h5 : (prog :: first :: rest).getD 1 [] = first := rfl
  unfold main
  rw [if_neg h0]
  simp only [h5, if_neg h2, if_neg h3, if_neg h4]
  rfl

/-! ## The claims -/

theorem ok_ne_ok {ε α : Type} {a b : α} (h : a ≠ b) :
    (Except.ok a : Except ε α) ≠ Except.ok b :=
  fun e => h (Except.ok.inj e)

theorem nl_toList : "\n".toList = ['\n'] := rfl

/-- The world after a successful `setActiveProject`. -/
theorem setActiveProject_ok (w : World) (projectID projectName : Str)
    (hw : w.writeFails = none) :
    setActiveProject w projectID projectName =
      (none, { w.emit (Event.write (projectID ++ "\n".toList ++ projectName)) with
                config := ReadFileResult.data (projectID ++ "\n".toList ++ projectName) }) := by
  unfold setActiveProject WriteFile
  simp only [hw]

/-- Reading back a record of two trimmed, newline-free, non-empty lines. -/
theorem getActiveProject_two_lines (w : World) (projectID projectName : Str)
    (hc : ReadFile w = ReadFileResult.data (projectID ++ "\n".toList ++ projectName))
    (hid : projectID ≠ []) (hname : projectName ≠ [])
    (hidnl : '\n' ∉ projectID) (hnamenl : '\n' ∉ projectName)
    (hidtrim : TrimSpace projectID = projectID)
    (hnametrim : TrimSpace projectName = projectName) :
    getActiveProject w = Except.ok (projectID, projectName) := by
  have hdata : projectID ++ "\n".toList ++ projectName = projectID ++ '\n' :: projectName := by
    rw [nl_toList, List.append_assoc]; rfl
  have htrim : TrimSpace (projectID ++ '\n' :: projectName) = projectID ++ '\n' :: projectName := by
    apply TrimSpace_eq_self
    · intro c hc
      rw [List.head?_append_of_ne_nil _ hid] at hc
      exact (TrimSpace_fixed projectID hidtrim).1 c hc
    · intro c hc
      have : (projectID ++ '\n' :: projectName).getLast? = projectName.getLast? := by
        cases projectName with
        | nil => exact absurd rfl hname
        | cons x xs =>
          rw [show projectID ++ '\n' :: x :: xs = (projectID ++ ['\n']) ++ (x :: xs) by simp,
            List.getLast?_append_cons]
      rw [this] at hc
      exact (TrimSpace_fixed projectName hnametrim).2 c hc
  have hsplit : Split (projectID ++ '\n' :: projectName) '\n' = [projectID, projectName] := by
    unfold Split
    rw [splitAux_append_sep _ _ _ hidnl, splitAux_no_sep _ _ hnamenl]
  unfold getActiveProject
  rw [hc, hdata]
  simp only [htrim, hsplit, List.length_cons, List.length_nil, List.getD_cons_zero,
    List.getD_cons_succ, hidtrim, hnametrim]
  rfl

/-- C1 (as amended): for every pair of non-empty strings id and name that
contain no newline and that have no leading or trailing white space,
`setActiveProject id name` (the write succeeding) followed by
`getActiveProject` succeeds and returns exactly `(id, name)`. -/
theorem setActiveProject_getActiveProject_roundtrip (w : World) (id name : Str)
    (hw : w.writeFails = none)
    (hid : id ≠ []) (hname : name ≠ [])
    (hidnl : '\n' ∉ id) (hnamenl : '\n' ∉ name)
    (hidtrim : TrimSpace id = id) (hnametrim : TrimSpace name = name) :
    (setActiveProject w id name).1 = none ∧
    getActiveProject (setActiveProject w id name).2 = Except.ok (id, name) := by
  rw [setActiveProject_ok w id name hw]
  exact ⟨rfl, getActiveProject_two_lines _ id name rfl hid hname hidnl hnamenl hidtrim hnametrim⟩

theorem setActiveProject_getActiveProject_roundtrip_witness :
    getActiveProject (setActiveProject (mkWorld (ReadFileResult.fail errNotExist) (Except.ok []))
      "p1".toList "Project One".toList).2 = Except.ok ("p1".toList, "Project One".toList) :=
  (setActiveProject_getActiveProject_roundtrip
    (mkWorld (ReadFileResult.fail errNotExist) (Except.ok [])) "p1".toList "Project One".toList
    rfl (by decide) (by decide) (by decide) (by decide) (by decide) (by decide)).2

/-- C1 (as stated, refuted): the strings `" p1"`, `"p1 "`, `" One"`, `"One "`
are non-empty and contain no newline, yet what is read back after the write
is the trimmed string, not the string that was set; and with the id `" "` the
read fails with the format error. -/
theorem setActiveProject_getActiveProject_roundtrip_counterexample :
    (" p1".toList ≠ [] ∧ '\n' ∉ " p1".toList ∧ "One".toList ≠ [] ∧ '\n' ∉ "One".toList ∧
      (setActiveProject (mkWorld (ReadFileResult.fail errNotExist) (Except.ok []))
        " p1".toList "One".toList).1 = none ∧
      getActiveProject (setActiveProject (mkWorld (ReadFileResult.fail errNotExist)
        (Except.ok [])) " p1".toList "One".toList).2
        ≠ Except.ok (" p1".toList, "One".toList)) ∧
    getActiveProject (setActiveProject (mkWorld (ReadFileResult.fail errNotExist)
        (Except.ok [])) " p1".toList "One".toList).2 = Except.ok ("p1".toList, "One".toList) ∧
    getActiveProject (setActiveProject (mkWorld (ReadFileResult.fail errNotExist)
        (Except.ok [])) "p1 ".toList "One".toList).2 = Except.ok ("p1".toList, "One".toList) ∧
    getActiveProject (setActiveProject (mkWorld (ReadFileResult.fail errNotExist)
        (Except.ok [])) "p1".toList " One".toList).2 = Except.ok ("p1".toList, "One".toList) ∧
    getActiveProject (setActiveProject (mkWorld (ReadFileResult.fail errNotExist)
        (Except.ok [])) "p1".toList "One ".toList).2 = Except.ok ("p1".toList, "One".toList) ∧
    getActiveProject (setActiveProject (mkWorld (ReadFileResult.fail errNotExist)
        (Except.ok [])) " ".toList "One".toList).2
      = Except.error (Errorf "Invalid format in config file".toList) := by
  refine ⟨⟨by decide, by decide, by decide, by decide, rfl, ?_⟩, rfl, rfl, rfl, rfl, rfl⟩
  have h : getActiveProject (setActiveProject (mkWorld (ReadFileResult.fail errNotExist)
      (Except.ok [])) " p1".toList "One".toList).2 = Except.ok ("p1".toList, "One".toList) := rfl
  rw [h]
  exact ok_ne_ok (by decide)

/-- C2: with an active project ID `p` loaded from the state store, the
pass-through of the arguments `first :: rest` (first token not reserved) runs
the program `openstack` with exactly those arguments, in order, followed by
the single element `--os-project-id=p`; it is the only command the run starts. -/
theorem runOpenStackCommand_arguments (w : World) (prog first : Str) (rest : List Str)
    (p name : Str)
    (h1 : first ≠ "--help".toList) (h2 : first ≠ "set-project".toList)
    (h3 : first ≠ "show-current".toList) (h4 : first ≠ "show-projects".toList)
    (hget : getActiveProject w = Except.ok (p, name)) (hp : p ≠ []) :
    runOpenStackCommand w (first :: rest)
      = Run w "openstack".toList (first :: rest ++ ["--os-project-id=".toList ++ p]) ∧
    (main (prog :: first :: rest) w).trace =
      w.trace ++ Event.run "openstack".toList (first :: rest ++ ["--os-project-id=".toList ++ p])
        :: (match w.cmdRun "openstack".toList
              (first :: rest ++ ["--os-project-id=".toList ++ p]) with
            | some err => [Event.print ("Error: ".toList ++ err.msg ++ "\n".toList)]
            | none => []) ∧
    invoked (main (prog :: first :: rest) w).trace =
      invoked w.trace ++
        [("openstack".toList, first :: rest ++ ["--os-project-id=".toList ++ p])] := by
  have hrun : runOpenStackCommand w (first :: rest)
      = Run w "openstack".toList (first :: rest ++ ["--os-project-id=".toList ++ p]) := by
    unfold runOpenStackCommand
    rw [hget]
    simp only [if_neg hp]
    rfl
  have htrace : (main (prog :: first :: rest) w).trace =
      w.trace ++ Event.run "openstack".toList (first :: rest ++ ["--os-project-id=".toList ++ p])
        :: (match w.cmdRun "openstack".toList
              (first :: rest ++ ["--os-project-id=".toList ++ p]) with
            | some err => [Event.print ("Error: ".toList ++ err.msg ++ "\n".toList)]
            | none => []) := by
    rw [main_passthrough prog first rest w h1 h2 h3 h4, hrun]
    unfold Run
    cases w.cmdRun "openstack".toList (first :: rest ++ ["--os-project-id=".toList ++ p]) with
    | none => rfl
    | some err => simp [printError, Print, World.emit]
  refine ⟨hrun, htrace, ?_⟩
  rw [htrace, invoked_append]
  cases w.cmdRun "openstack".toList (first :: rest ++ ["--os-project-id=".toList ++ p]) with
  | none => rfl
  | some err => rfl

theorem runOpenStackCommand_arguments_witness :
    invoked (main ["my-openstack-cli".toList, "server".toList, "list".toList]
      (mkWorld (ReadFileResult.data "p1\nProjectOne".toList) (Except.ok []))).trace =
      [("openstack".toList, ["server".toList, "list".toList, "--os-project-id=p1".toList])] :=
  (runOpenStackCommand_arguments
    (mkWorld (ReadFileResult.data "p1\nProjectOne".toList) (Except.ok []))
    "my-openstack-cli".toList "server".toList ["list".toList] "p1".toList "ProjectOne".toList
    (by decide) (by decide) (by decide) (by decide) rfl (by decide)).2.2

/-- C3: when the listing succeeds with captured output `output`,
`getAvailableProjects` returns a mapping that sends `k` to `v` if and only if
the last line of the output with at least two fields and first field `k` has
`v` as its second field (fields after the second play no part); `k` is a key
if and only if some line has at least two fields and first field `k`, so an ID
that appears only on lines with fewer than two fields is not a key. -/
theorem getAvailableProjects_parses (w : World) (output : Str)
    (hout : w.cmdOutput "openstack".toList listArgs = Except.ok output) :
    ∃ m, (getAvailableProjects w).1 = Except.ok m ∧
      (∀ k v, m.get? k = some v ↔
        ∃ pre line post, Split output '\n' = pre ++ line :: post ∧
          (∃ more, Fields line = k :: v :: more) ∧
          ∀ l ∈ post, ∀ v2 more, Fields l ≠ k :: v2 :: more) ∧
      (∀ k, k ∈ m.keys ↔ ∃ line ∈ Split output '\n', ∃ v more, Fields line = k :: v :: more) := by
  refine ⟨parseProjects output, ?_, ?_, ?_⟩
  · unfold getAvailableProjects Output
    simp only [hout]
  · intro k v
    exact parseLines_get? _ _ (entries_TrimSpace output) k v
  · intro k
    exact parseLines_keys _ _ (entries_TrimSpace output) k

theorem getAvailableProjects_parses_witness :
    ∃ m, (getAvailableProjects (mkWorld (ReadFileResult.fail errNotExist)
        (Except.ok "id1   Alpha\nid3\nid2   Beta Gamma\nid1 Last\n".toList))).1 = Except.ok m ∧
      m.get? "id1".toList = some "Last".toList ∧ m.get? "id2".toList = some "Beta".toList ∧
      m.get? "id3".toList = none ∧ "id3".toList ∉ m.keys := by
  obtain ⟨m, hm, _, _⟩ := getAvailableProjects_parses
    (mkWorld (ReadFileResult.fail errNotExist)
      (Except.ok "id1   Alpha\nid3\nid2   Beta Gamma\nid1 Last\n".toList))
    "id1   Alpha\nid3\nid2   Beta Gamma\nid1 Last\n".toList rfl
  refine ⟨m, hm, ?_⟩
  have hm2 : (getAvailableProjects (mkWorld (ReadFileResult.fail errNotExist)
      (Except.ok "id1   Alpha\nid3\nid2   Beta Gamma\nid1 Last\n".toList))).1
      = Except.ok ⟨[("id1".toList, "Last".toList), ("id2".toList, "Beta".toList)]⟩ := rfl
  rw [hm2] at hm
  injection hm with hm
  subst hm
  decide

/-- The listing example of the specification. -/
theorem parseProjects_example :
    parseProjects "id1   Alpha\nid2   Beta\n".toList
      = ⟨[("id2".toList, "Beta".toList), ("id1".toList, "Alpha".toList)]⟩ ∧
    (parseProjects "id1   Alpha\nid2   Beta\n".toList).get? "id1".toList = some "Alpha".toList ∧
    (parseProjects "id1   Alpha\nid2   Beta\n".toList).get? "id2".toList = some "Beta".toList ∧
    parseProjects "id3".toList = GoMap.make := by
  decide

/-- C4: for every content `data` of an existing, readable state file,
`getActiveProject` fails with the format error if and only if the content,
trimmed and split on newline, has fewer than two lines (that is, the trimmed
content holds no newline); in every other case it succeeds. An empty or
all-white-space file is such a content. -/
theorem getActiveProject_format_error (w : World) (data : Str)
    (hd : ReadFile w = ReadFileResult.data data) :
    (getActiveProject w = Except.error (Errorf "Invalid format in config file".toList) ↔
      (Split (TrimSpace data) '\n').length < 2) ∧
    ((Split (TrimSpace data) '\n').length < 2 ↔ '\n' ∉ TrimSpace data) ∧
    (¬ (Split (TrimSpace data) '\n').length < 2 →
      ∃ projectID projectName, getActiveProject w = Except.ok (projectID, projectName)) ∧
    (allSpace data →
      getActiveProject w = Except.error (Errorf "Invalid format in config file".toList)) := by
  have hiff : getActiveProject w = Except.error (Errorf "Invalid format in config file".toList) ↔
      (Split (TrimSpace data) '\n').length < 2 := by
    unfold getActiveProject
    rw [hd]
    simp only
    by_cases hlen : 2 ≤ (Split (TrimSpace data) '\n').length
    · rw [if_pos hlen]
      constructor
      · intro h
        exact Except.noConfusion h
      · intro h
        omega
    · rw [if_neg hlen]
      constructor
      · intro _
        omega
      · intro _
        rfl
  refine ⟨hiff, Split_length_lt_two _ _, ?_, ?_⟩
  · intro hlen
    have hlen2 : 2 ≤ (Split (TrimSpace data) '\n').length := by omega
    refine ⟨TrimSpace ((Split (TrimSpace data) '\n').getD 0 []),
      TrimSpace ((Split (TrimSpace data) '\n').getD 1 []), ?_⟩
    unfold getActiveProject
    rw [hd]
    simp only
    rw [if_pos hlen2]
  · intro hsp
    apply hiff.mpr
    have ht : TrimSpace data = [] := by
      unfold TrimSpace
      have : data.dropWhile isSpace = [] := List.dropWhile_eq_nil_iff.mpr hsp
      rw [this]
      rfl
    rw [ht]
    decide

theorem getActiveProject_format_error_witness :
    getActiveProject (mkWorld (ReadFileResult.data "abc".toList) (Except.ok []))
      = Except.error (Errorf "Invalid format in config file".toList) ∧
    getActiveProject (mkWorld (ReadFileResult.data " \n\t ".toList) (Except.ok []))
      = Except.error (Errorf "Invalid format in config file".toList) ∧
    getActiveProject (mkWorld (ReadFileResult.data []) (Except.ok []))
      = Except.error (Errorf "Invalid format in config file".toList) :=
  ⟨(getActiveProject_format_error
      (mkWorld (ReadFileResult.data "abc".toList) (Except.ok [])) "abc".toList rfl).1.mpr
      (by decide),
   (getActiveProject_format_error
      (mkWorld (ReadFileResult.data " \n\t ".toList) (Except.ok [])) " \n\t ".toList rfl).2.2.2
      (by decide),
   (getActiveProject_format_error
      (mkWorld (ReadFileResult.data []) (Except.ok [])) [] rfl).2.2.2 (by decide)⟩

/-- C5 (as amended): on a command line whose first token is `set-project`,
the dispatcher calls `setActiveProject` with the two tokens that follow when
at least two additional arguments are given (further arguments are ignored),
and with fewer than two it prints the usage hint, writes nothing, leaves the
state file unchanged and returns. -/
theorem main_set_project_arity (w : World) (prog : Str) (rest : List Str) :
    (rest.length < 2 →
      main (prog :: "set-project".toList :: rest) w = Print w setProjectUsage ∧
      (main (prog :: "set-project".toList :: rest) w).config = w.config ∧
      written (main (prog :: "set-project".toList :: rest) w).trace = written w.trace ∧
      printed (main (prog :: "set-project".toList :: rest) w).trace
        = printed w.trace ++
          ["Usage: my-openstack-cli set-project <project-id> <project-name>\n".toList]) ∧
    (2 ≤ rest.length →
      written (main (prog :: "set-project".toList :: rest) w).trace
        = written w.trace ++ [rest.getD 0 [] ++ "\n".toList ++ rest.getD 1 []] ∧
      (w.writeFails = none →
        (main (prog :: "set-project".toList :: rest) w).config
          = ReadFileResult.data (rest.getD 0 [] ++ "\n".toList ++ rest.getD 1 []) ∧
        printed (main (prog :: "set-project".toList :: rest) w).trace
          = printed w.trace ++ ["Project set to: ".toList ++ rest.getD 0 [] ++ "\n".toList])) := by
  constructor
  · intro h
    rw [main_set_project, if_pos h]
    refine ⟨rfl, rfl, ?_, ?_⟩
    · simp only [Print, World.emit, written_append]
      simp [written]
    · simp only [Print, World.emit, printed_append]
      simp [printed, setProjectUsage]
  · intro h
    have h2 : ¬ rest.length < 2 := by omega
    rw [main_set_project, if_neg h2]
    unfold setActiveProject WriteFile
    cases hw : w.writeFails with
    | none =>
      refine ⟨?_, fun _ => ⟨rfl, ?_⟩⟩
      · simp only [Print, World.emit, written_append]
        simp [written]
      · simp only [Print, World.emit, printed_append]
        simp [printed]
    | some er =>
      refine ⟨?_, fun hn => Option.noConfusion hn⟩
      simp only [printError, Print, World.emit, written_append]
      simp [written]

theorem main_set_project_arity_witness :
    (main ["my-openstack-cli".toList, "set-project".toList, "p1".toList]
      (mkWorld (ReadFileResult.data "old\nOld".toList) (Except.ok []))).config
      = ReadFileResult.data "old\nOld".toList ∧
    (main ["my-openstack-cli".toList, "set-project".toList, "p1".toList, "ProjectOne".toList]
      (mkWorld (ReadFileResult.data "old\nOld".toList) (Except.ok []))).config
      = ReadFileResult.data "p1\nProjectOne".toList :=
  ⟨((main_set_project_arity (mkWorld (ReadFileResult.data "old\nOld".toList) (Except.ok []))
      "my-openstack-cli".toList ["p1".toList]).1 (by decide)).2.1,
   (((main_set_project_arity (mkWorld (ReadFileResult.data "old\nOld".toList) (Except.ok []))
      "my-openstack-cli".toList ["p1".toList, "ProjectOne".toList]).2 (by decide)).2 rfl).1⟩

/-- C5 (as stated, refuted): with three additional arguments, which is not
exactly two, `set-project a b c` does not print the usage hint: it writes
`a\nb` to the state file and prints the confirmation. -/
theorem main_set_project_arity_counterexample :
    ["a".toList, "b".toList, "c".toList].length ≠ 2 ∧
    written (main ["my-openstack-cli".toList, "set-project".toList, "a".toList, "b".toList,
      "c".toList] (mkWorld (ReadFileResult.data "old\nOld".toList) (Except.ok []))).trace
      = ["a\nb".toList] ∧
    (main ["my-openstack-cli".toList, "set-project".toList, "a".toList, "b".toList,
      "c".toList] (mkWorld (ReadFileResult.data "old\nOld".toList) (Except.ok []))).config
      = ReadFileResult.data "a\nb".toList ∧
    printed (main ["my-openstack-cli".toList, "set-project".toList, "a".toList, "b".toList,
      "c".toList] (mkWorld (ReadFileResult.data "old\nOld".toList) (Except.ok []))).trace
      = ["Project set to: a\n".toList] ∧
    printed (main ["my-openstack-cli".toList, "set-project".toList, "a".toList, "b".toList,
      "c".toList] (mkWorld (ReadFileResult.data "old\nOld".toList) (Except.ok []))).trace
      ≠ ["Usage: my-openstack-cli set-project <project-id> <project-name>\n".toList] := by
  decide

/-- The listing leaves the state file alone and records one event. -/
theorem getAvailableProjects_world (w : World) :
    (getAvailableProjects w).2 = w.emit (Event.output "openstack".toList listArgs) := by
  unfold getAvailableProjects Output
  cases w.cmdOutput "openstack".toList listArgs <;> rfl

theorem getActiveProject_emit (w : World) (e : Event) :
    getActiveProject (w.emit e) = getActiveProject w := rfl

/-- C6 (as amended): when no state file exists and the external project
listing succeeds (with any output), `show-current` prints the notice
`No active project set.` and nothing else, and leaves the state file alone. -/
theorem show_current_no_active_project (w : World) (prog : Str) (rest : List Str)
    (err : GoError) (output : Str)
    (hcfg : ReadFile w = ReadFileResult.fail err) (hne : err.notExist = true)
    (hout : w.cmdOutput "openstack".toList listArgs = Except.ok output) :
    printed (main (prog :: "show-current".toList :: rest) w).trace
      = printed w.trace ++ ["No active project set.\n".toList] ∧
    (main (prog :: "show-current".toList :: rest) w).trace
      = w.trace ++ [Event.output "openstack".toList listArgs,
                    Event.print "No active project set.\n".toList] ∧
    (main (prog :: "show-current".toList :: rest) w).config = w.config := by
  have hget : getActiveProject w = Except.ok ([], []) := by
    unfold getActiveProject
    rw [hcfg]
    simp only [hne, if_true]
  have hmain : main (prog :: "show-current".toList :: rest) w
      = Print (w.emit (Event.output "openstack".toList listArgs))
          "No active project set.\n".toList := by
    rw [main_show_current]
    unfold getAvailableProjects Output
    simp only [hout, getActiveProject_emit, hget, if_true]
  rw [hmain]
  refine ⟨?_, ?_, rfl⟩
  · simp only [Print, World.emit, printed_append]
    simp [printed]
  · simp only [Print, World.emit, List.append_assoc]
    rfl

theorem show_current_no_active_project_witness :
    printed (main ["my-openstack-cli".toList, "show-current".toList]
      (mkWorld (ReadFileResult.fail errNotExist) (Except.ok "p1 ProjectOne\n".toList))).trace
      = ["No active project set.\n".toList] :=
  (show_current_no_active_project
    (mkWorld (ReadFileResult.fail errNotExist) (Except.ok "p1 ProjectOne\n".toList))
    "my-openstack-cli".toList [] errNotExist "p1 ProjectOne\n".toList rfl rfl rfl).1

/-- C6 (as stated, refuted): with no state file and a failing external
listing, `show-current` prints the error of the listing and not the notice. -/
theorem show_current_no_active_project_counterexample :
    ReadFile (mkWorld (ReadFileResult.fail errNotExist)
      (Except.error ⟨"exit status 1".toList, false⟩)) = ReadFileResult.fail errNotExist ∧
    errNotExist.notExist = true ∧
    printed (main ["my-openstack-cli".toList, "show-current".toList]
      (mkWorld (ReadFileResult.fail errNotExist)
        (Except.error ⟨"exit status 1".toList, false⟩))).trace
      = ["Error: exit status 1\n".toList] ∧
    printed (main ["my-openstack-cli".toList, "show-current".toList]
      (mkWorld (ReadFileResult.fail errNotExist)
        (Except.error ⟨"exit status 1".toList, false⟩))).trace
      ≠ ["No active project set.\n".toList] := by
  decide

/-- C7: for every state file that `getActiveProject` parses to the project ID
`p` (with any stored name) and every successful listing whose parsed directory
maps `p` to `n`, `show-current` prints exactly the two lines
`Active project ID: p` and `Active project Name: n`; the name printed is the
one of the directory. -/
theorem show_current_prints (w : World) (prog : Str) (rest : List Str)
    (data p name : Str) (m : GoMap) (n : Str)
    (hd : ReadFile w = ReadFileResult.data data)
    (hget : getActiveProject w = Except.ok (p, name))
    (hlist : (getAvailableProjects w).1 = Except.ok m)
    (hn : m.get? p = some n) :
    printed (main (prog :: "show-current".toList :: rest) w).trace
      = printed w.trace ++ ["Active project ID: ".toList ++ p ++ "\n".toList,
                            "Active project Name: ".toList ++ n ++ "\n".toList] := by
  have hp : p ≠ [] := getActiveProject_data_id_ne_nil w data p name hd hget
  have hname : getProjectName p m = Except.ok n := by
    unfold getProjectName
    rw [hn]
  have hmain : main (prog :: "show-current".toList :: rest) w
      = Print (Print (w.emit (Event.output "openstack".toList listArgs))
          ("Active project ID: ".toList ++ p ++ "\n".toList))
          ("Active project Name: ".toList ++ n ++ "\n".toList) := by
    rw [main_show_current]
    have hpair : getAvailableProjects w
        = (Except.ok m, w.emit (Event.output "openstack".toList listArgs)) := by
      rw [← hlist, ← getAvailableProjects_world]
    rw [hpair]
    simp only [getActiveProject_emit, hget, if_neg hp, hname]
  rw [hmain]
  simp only [Print, World.emit, printed_append]
  simp [printed]

theorem show_current_prints_witness :
    printed (main ["my-openstack-cli".toList, "show-current".toList]
      (main ["my-openstack-cli".toList, "set-project".toList, "p1".toList, "ProjectOne".toList]
        (mkWorld (ReadFileResult.fail errNotExist) (Except.ok "p1 ProjectOne\n".toList)))).trace
      = ["Project set to: p1\n".toList, "Active project ID: p1\n".toList,
         "Active project Name: ProjectOne\n".toList] :=
  show_current_prints
    (main ["my-openstack-cli".toList, "set-project".toList, "p1".toList, "ProjectOne".toList]
      (mkWorld (ReadFileResult.fail errNotExist) (Except.ok "p1 ProjectOne\n".toList)))
    "my-openstack-cli".toList [] "p1\nProjectOne".toList "p1".toList "ProjectOne".toList
    ⟨[("p1".toList, "ProjectOne".toList)]⟩ "ProjectOne".toList rfl rfl rfl rfl

/-- C8: when reading the state file fails because the file does not exist,
`getActiveProject` returns the empty project ID and name with no error; any
other read failure is returned as the error. -/
theorem getActiveProject_absent (w : World) (err : GoError)
    (hcfg : ReadFile w = ReadFileResult.fail err) :
    (err.notExist = true → getActiveProject w = Except.ok ([], [])) ∧
    (err.notExist = false → getActiveProject w = Except.error err) := by
  unfold getActiveProject
  rw [hcfg]
  constructor
  · intro h
    simp only [h, if_true]
  · intro h
    simp [h]

theorem getActiveProject_absent_witness :
    getActiveProject (mkWorld (ReadFileResult.fail errNotExist) (Except.ok []))
      = Except.ok ([], []) ∧
    getActiveProject (mkWorld (ReadFileResult.fail ⟨"permission denied".toList, false⟩)
      (Except.ok [])) = Except.error ⟨"permission denied".toList, false⟩ :=
  ⟨(getActiveProject_absent (mkWorld (ReadFileResult.fail errNotExist) (Except.ok []))
      errNotExist rfl).1 rfl,
   (getActiveProject_absent
      (mkWorld (ReadFileResult.fail ⟨"permission denied".toList, false⟩) (Except.ok []))
      ⟨"permission denied".toList, false⟩ rfl).2 rfl⟩

theorem find?_of_mem_nodup (es : List (Str × Str)) (hm : (es.map Prod.fst).Nodup)
    (k v : Str) (h : (k, v) ∈ es) :
    (es.find? (fun e => decide (e.1 = k))).map Prod.snd = some v := by
  induction es with
  | nil => simp at h
  | cons e es ih =>
    rw [List.map_cons, List.nodup_cons] at hm
    rcases List.mem_cons.mp h with h1 | h1
    · rw [← h1]
      simp
    · have hne : ¬ e.1 = k := by
        intro e1
        apply hm.1
        rw [e1]
        exact List.mem_map.mpr ⟨(k, v), h1, rfl⟩
      rw [List.find?_cons_of_neg _ (by simpa using hne)]
      exact ih hm.2 h1

/-- In a map with distinct keys, the entry of a key is what a lookup finds. -/
theorem GoMap.get?_of_mem (m : GoMap) (hm : m.keys.Nodup) (k v : Str)
    (h : (k, v) ∈ m.entries) : m.get? k = some v :=
  find?_of_mem_nodup m.entries hm k v h

/-- Assignment keeps the keys of a map distinct. -/
theorem GoMap.set_nodup (m : GoMap) (hm : m.keys.Nodup) (a b : Str) :
    (m.set a b).keys.Nodup := by
  unfold GoMap.keys GoMap.set
  rw [List.map_cons, List.nodup_cons]
  constructor
  · intro h
    obtain ⟨e, he, hk⟩ := List.mem_map.mp h
    have := (List.mem_filter.mp he).2
    simp at this
    exact this hk
  · exact hm.sublist ((List.filter_sublist _).map _)

/-- The directory parsed from a listing has distinct keys. -/
theorem parseLines_nodup (m : GoMap) (hm : m.keys.Nodup) (ls : List Str) :
    (parseLines m ls).keys.Nodup := by
  induction ls generalizing m with
  | nil => exact hm
  | cons l ls ih =>
    unfold parseLines
    by_cases h : 2 ≤ (Fields l).length
    · simp only [h, if_true]
      exact ih _ (GoMap.set_nodup m hm _ _)
    · simp only [h, if_false]
      exact ih _ hm

/-- C9: `getProjectName p d` fails with the not-found error
`Project ID not found: p` if and only if `p` is not a key of `d` (and it fails
in no other way); otherwise it returns exactly the name `d` holds for `p`,
the empty name included. -/
theorem getProjectName_spec (p : Str) (d : GoMap) :
    (getProjectName p d = Except.error (Errorf ("Project ID not found: ".toList ++ p)) ↔
      p ∉ d.keys) ∧
    ((∃ err, getProjectName p d = Except.error err) ↔ p ∉ d.keys) ∧
    (∀ n, d.get? p = some n → getProjectName p d = Except.ok n) ∧
    (p ∈ d.keys → ∃ n, d.get? p = some n ∧ getProjectName p d = Except.ok n) ∧
    (d.keys.Nodup → ∀ n, (p, n) ∈ d.entries → getProjectName p d = Except.ok n) := by
  have hok : ∀ n, d.get? p = some n → getProjectName p d = Except.ok n := by
    intro n hn
    unfold getProjectName
    rw [hn]
  have hnone : d.get? p = none → getProjectName p d
      = Except.error (Errorf ("Project ID not found: ".toList ++ p)) := by
    intro hn
    unfold getProjectName
    rw [hn]
  refine ⟨?_, ?_, hok, ?_, ?_⟩
  · constructor
    · intro h
      cases hg : d.get? p with
      | none => exact (GoMap.get?_eq_none d p).mp hg
      | some n =>
        rw [hok n hg] at h
        exact Except.noConfusion h
    · intro h
      exact hnone ((GoMap.get?_eq_none d p).mpr h)
  · constructor
    · rintro ⟨err, h⟩
      cases hg : d.get? p with
      | none => exact (GoMap.get?_eq_none d p).mp hg
      | some n =>
        rw [hok n hg] at h
        exact Except.noConfusion h
    · intro h
      exact ⟨_, hnone ((GoMap.get?_eq_none d p).mpr h)⟩
  · intro h
    cases hg : d.get? p with
    | none => exact absurd h ((GoMap.get?_eq_none d p).mp hg)
    | some n => exact ⟨n, rfl, hok n hg⟩
  · intro hnd n hmem
    exact hok n (GoMap.get?_of_mem d hnd p n hmem)

theorem getProjectName_spec_witness :
    getProjectName "p2".toList ⟨[("p1".toList, "One".toList), ("p2".toList, [])]⟩
      = Except.ok [] ∧
    getProjectName "unknown-id".toList ⟨[("p1".toList, "One".toList), ("p2".toList, [])]⟩
      = Except.error (Errorf "Project ID not found: unknown-id".toList) :=
  ⟨(getProjectName_spec "p2".toList
      ⟨[("p1".toList, "One".toList), ("p2".toList, [])]⟩).2.2.1 [] rfl,
   (getProjectName_spec "unknown-id".toList
      ⟨[("p1".toList, "One".toList), ("p2".toList, [])]⟩).1.mpr (by decide)⟩

/-- C10: if `getActiveProject` succeeds on an existing state file, the project
ID it returns is not empty; hence after a successful read the project ID is
empty exactly when the state file does not exist. -/
theorem getActiveProject_empty_id_iff_absent (w : World) (projectID projectName : Str)
    (h : getActiveProject w = Except.ok (projectID, projectName)) :
    (∀ data, ReadFile w = ReadFileResult.data data → projectID ≠ []) ∧
    (projectID = [] ↔ ∃ err, ReadFile w = ReadFileResult.fail err ∧ err.notExist = true) := by
  have h1 : ∀ data, ReadFile w = ReadFileResult.data data → projectID ≠ [] :=
    fun data hd => getActiveProject_data_id_ne_nil w data projectID projectName hd h
  refine ⟨h1, ?_⟩
  constructor
  · intro hid
    cases hr : ReadFile w with
    | data d => exact absurd hid (h1 d hr)
    | fail err =>
      refine ⟨err, rfl, ?_⟩
      unfold getActiveProject at h
      rw [hr] at h
      simp only at h
      by_cases hne : err.notExist = true
      · exact hne
      · rw [if_neg hne] at h
        exact Except.noConfusion h
  · rintro ⟨err, hr, hne⟩
    unfold getActiveProject at h
    rw [hr] at h
    simp only [hne, if_true] at h
    injection h with h
    injection h with h2 _
    exact h2.symm

theorem getActiveProject_empty_id_iff_absent_witness :
    getActiveProject (mkWorld (ReadFileResult.data "p1\n\nrest".toList) (Except.ok []))
      = Except.ok ("p1".toList, []) ∧ "p1".toList ≠ [] :=
  ⟨rfl, (getActiveProject_empty_id_iff_absent
    (mkWorld (ReadFileResult.data "p1\n\nrest".toList) (Except.ok [])) "p1".toList [] rfl).1
    "p1\n\nrest".toList rfl⟩

end OpenCli
